import Mathlib

/-!
Shallow embedding of the journal/mood tracking core: the entry
reconciliation store (upsert handlers in the app root component), the
dashboard's 7-day windowed aggregates and alert rules, the analytics
date-grouping and trailing-window chart data, and the load-from-storage
fallback.  Dates are modelled as integer day indices (days since epoch)
and timestamps as integer millisecond values; calendar-date truncation of
a timestamp is floor division by the milliseconds per day, matching the
date portion of an ISO timestamp.  JavaScript numbers on the arithmetic
paths the program exercises (integer field values, sums, divisions) are
modelled as rationals.
-/

/-- One medication sub-record of a journal entry:
`{ name: string; taken: boolean; time: string }`. -/
structure Medication where
  name : String
  taken : Bool
  time : String
deriving DecidableEq, Repr

/-- The `JournalEntry` shape from the app root component.  The `date`
string field is modelled as an integer day index; its JavaScript
`new Date(entry.date)` parse is `date * msPerDay` (UTC midnight). -/
structure JournalEntry where
  id : String
  date : Int
  medications : List Medication
  sleepHours : ℚ
  sleepQuality : ℚ
  studyHours : ℚ
  studySubjects : String
  clinicalRotation : String
  journalText : String
  gratitude : String
  goals : String
  wellness : String
  challenges : String
  learnings : String
deriving DecidableEq, Repr

/-- The `MoodEntry` shape from the app root component.  The `timestamp`
string field is modelled as an integer millisecond value. -/
structure MoodEntry where
  id : String
  timestamp : Int
  mood : ℚ
  anxiety : ℚ
  energy : ℚ
  stress : ℚ
  psychoticSymptoms : List String
  triggers : String
  notes : String
  location : Option String
  weather : Option String
deriving DecidableEq, Repr

/-- Milliseconds per calendar day. -/
def msPerDay : Int := 86400000

/-- Calendar-date truncation of a millisecond timestamp: the date portion
of `new Date(t).toISOString()`, i.e. the floor day index. -/
def dateOf (t : Int) : Int := Int.fdiv t msPerDay

/-- JavaScript `Array.prototype.findIndex`: the index of the first element
satisfying the predicate, if any. -/
def findIndex {α : Type} (p : α → Bool) : List α → Option Nat
  | [] => none
  | x :: xs => if p x then some 0 else (findIndex p xs).map (· + 1)

/-- The shared body of `handleSaveJournalEntry` and `handleSaveMoodEntry`:
look up the first entry with the same id; if found, copy the array and
overwrite that index, otherwise append the new entry at the end. -/
def upsertBy {α : Type} (id : α → String) (entries : List α) (entry : α) : List α :=
  match findIndex (fun e => decide (id e = id entry)) entries with
  | some i => entries.set i entry
  | none => entries ++ [entry]

/-- The app root component's state: active tab, the two entry collections,
and the selected calendar date. -/
structure AppState where
  activeTab : String
  journalEntries : List JournalEntry
  moodEntries : List MoodEntry
  selectedDate : Option Int
deriving Repr

/-- `handleSaveJournalEntry`: upsert into the journal collection by id,
then switch back to the dashboard tab. -/
def handleSaveJournalEntry (s : AppState) (entry : JournalEntry) : AppState :=
  { s with
    journalEntries := upsertBy JournalEntry.id s.journalEntries entry
    activeTab := "dashboard" }

/-- `handleSaveMoodEntry`: upsert into the mood collection by id; the
active tab is left unchanged so that further entries can be added. -/
def handleSaveMoodEntry (s : AppState) (entry : MoodEntry) : AppState :=
  { s with moodEntries := upsertBy MoodEntry.id s.moodEntries entry }

/-- The load-on-mount effect for one storage key: a missing value leaves
the initial empty collection; a stored value that fails to decode is
caught, logged and likewise leaves the initial empty collection.
`JSON.parse` plus the entity shape is abstracted as a fallible decoder. -/
def loadCollection {α : Type} (saved : Option String)
    (decode : String → Option (List α)) : List α :=
  match saved with
  | none => []
  | some s =>
    match decode s with
    | some entries => entries
    | none => []

/-- The whole load-on-mount effect: the two storage keys are decoded
independently, each with its own fallback. -/
def loadEntries (savedJournal savedMood : Option String)
    (decodeJournal : String → Option (List JournalEntry))
    (decodeMood : String → Option (List MoodEntry)) :
    List JournalEntry × List MoodEntry :=
  (loadCollection savedJournal decodeJournal, loadCollection savedMood decodeMood)

/-- Dashboard: `journalEntries.filter(entry => new Date(entry.date) >= weekAgo)`,
with the parse of a date-only string being UTC midnight of that day. -/
def recentJournalEntries (js : List JournalEntry) (weekAgo : Int) : List JournalEntry :=
  js.filter (fun e => decide (weekAgo ≤ e.date * msPerDay))

/-- Dashboard: `moodEntries.filter(entry => new Date(entry.timestamp) >= weekAgo)`. -/
def recentMoodEntries (ms : List MoodEntry) (weekAgo : Int) : List MoodEntry :=
  ms.filter (fun e => decide (weekAgo ≤ e.timestamp))

/-- The dashboard's guarded mean:
`l.length > 0 ? l.reduce((sum, e) => sum + f e, 0) / l.length : 0`. -/
def rollingMeanQ {α : Type} (f : α → ℚ) (l : List α) : ℚ :=
  if 0 < l.length then (l.map f).sum / (l.length : ℚ) else 0

/-- Dashboard `avgMood` over the filtered mood entries. -/
def avgMoodOf (ms : List MoodEntry) : ℚ := rollingMeanQ MoodEntry.mood ms

/-- Dashboard `avgAnxiety` over the filtered mood entries. -/
def avgAnxietyOf (ms : List MoodEntry) : ℚ := rollingMeanQ MoodEntry.anxiety ms

/-- Dashboard `avgEnergy` over the filtered mood entries. -/
def avgEnergyOf (ms : List MoodEntry) : ℚ := rollingMeanQ MoodEntry.energy ms

/-- Dashboard `avgStress` over the filtered mood entries. -/
def avgStressOf (ms : List MoodEntry) : ℚ := rollingMeanQ MoodEntry.stress ms

/-- Dashboard `avgSleep` over the filtered journal entries. -/
def avgSleepOf (js : List JournalEntry) : ℚ := rollingMeanQ JournalEntry.sleepHours js

/-- Dashboard `avgStudy` over the filtered journal entries. -/
def avgStudyOf (js : List JournalEntry) : ℚ := rollingMeanQ JournalEntry.studyHours js

/-- Dashboard `totalMeds`: total medication count across the filtered
journal entries. -/
def totalMedsOf (js : List JournalEntry) : Nat :=
  (js.map (fun e => e.medications.length)).sum

/-- Dashboard `takenMeds`: medications marked taken across the filtered
journal entries. -/
def takenMedsOf (js : List JournalEntry) : Nat :=
  (js.map (fun e => (e.medications.filter (fun m => m.taken)).length)).sum

/-- Dashboard `medicationAdherence`:
`totalMeds > 0 ? (takenMeds / totalMeds) * 100 : 0`. -/
def adherenceOf (js : List JournalEntry) : ℚ :=
  if 0 < totalMedsOf js then ((takenMedsOf js : ℚ) / (totalMedsOf js : ℚ)) * 100 else 0

/-- Dashboard `psychoticSymptomDays`: the number of filtered mood
*entries* whose `psychoticSymptoms` array is non-empty.  (The name and
the user-facing message speak of days, but the computation counts
entries.) -/
def psychoticSymptomDaysOf (ms : List MoodEntry) : Nat :=
  (ms.filter (fun e => decide (0 < e.psychoticSymptoms.length))).length

/-- The seven advisory alerts of the dashboard's health-alert card, in
the order their conditional blocks appear in the markup. -/
inductive AlertKind where
  | lowMood
  | highAnxiety
  | sleepDeficit
  | lowAdherence
  | psychoticSymptoms
  | allClear
  | noData
deriving DecidableEq, Repr

/-- The dashboard's health-alert card as a function of the filtered
7-day entry lists: each conditional block contributes its alert when its
condition holds, in markup order. -/
def alertsOf (rj : List JournalEntry) (rm : List MoodEntry) : List AlertKind :=
  (if avgMoodOf rm < 4 then [AlertKind.lowMood] else []) ++
  (if 7 < avgAnxietyOf rm then [AlertKind.highAnxiety] else []) ++
  (if avgSleepOf rj < 6 then [AlertKind.sleepDeficit] else []) ++
  (if adherenceOf rj < 80 ∧ 0 < totalMedsOf rj then [AlertKind.lowAdherence] else []) ++
  (if 3 < psychoticSymptomDaysOf rm then [AlertKind.psychoticSymptoms] else []) ++
  (if 7 ≤ avgMoodOf rm ∧ avgAnxietyOf rm ≤ 3 ∧ 7 ≤ avgSleepOf rj ∧ 90 ≤ adherenceOf rj
    then [AlertKind.allClear] else []) ++
  (if avgMoodOf rm = 0 ∧ avgAnxietyOf rm = 0 ∧ rm.length = 0 then [AlertKind.noData] else [])

/-- The dashboard alert card over the raw collections and the `weekAgo`
cutoff instant: filter to the trailing window, then evaluate the rules. -/
def dashboardAlerts (js : List JournalEntry) (ms : List MoodEntry) (weekAgo : Int) :
    List AlertKind :=
  alertsOf (recentJournalEntries js weekAgo) (recentMoodEntries ms weekAgo)

/-- JavaScript `array.slice(-n)` for `n > 0`: the last `n` elements (all
of them when the array is shorter). -/
def sliceLast {α : Type} (n : Nat) (l : List α) : List α :=
  l.drop (l.length - n)

/-- JavaScript `Math.round`: round half toward positive infinity. -/
def jsRound (q : ℚ) : Int := Int.floor (q + 1/2)

/-- JavaScript `Math.round(q * 10) / 10`: round to one decimal place. -/
def jsRound10 (q : ℚ) : ℚ := (jsRound (q * 10) : ℚ) / 10

/-- One step of the analytics grouping reduce: push the entry onto the
group of its date key if that key already exists, otherwise append a new
singleton group at the end (JavaScript object insertion order). -/
def groupInsert (d : Int) (e : MoodEntry) :
    List (Int × List MoodEntry) → List (Int × List MoodEntry)
  | [] => [(d, [e])]
  | (k, g) :: rest =>
    if k = d then (k, g ++ [e]) :: rest else (k, g) :: groupInsert d e rest

/-- Analytics `moodByDate`: the reduce that groups mood entries by the
date portion of their timestamp, keys in first-seen order, each group in
store order. -/
def moodByDate (ms : List MoodEntry) : List (Int × List MoodEntry) :=
  ms.foldl (fun acc e => groupInsert (dateOf e.timestamp) e acc) []

/-- Reading a date's group from the grouping: the first association with
that key, or the empty list when the key is absent. -/
def findGroup (k : Int) : List (Int × List MoodEntry) → List MoodEntry
  | [] => []
  | (k', g) :: rest => if k' = k then g else findGroup k rest

/-- The unguarded per-date mean used inside `moodTrendData`:
`entries.reduce((sum, e) => sum + f e, 0) / entries.length` (groups are
never empty there). -/
def dailyAvgQ (f : MoodEntry → ℚ) (es : List MoodEntry) : ℚ :=
  (es.map f).sum / (es.length : ℚ)

/-- One row of the analytics mood-trend chart. -/
structure TrendPoint where
  date : Int
  mood : ℚ
  anxiety : ℚ
  energy : ℚ
  stress : ℚ
  count : Nat
deriving DecidableEq, Repr

/-- Analytics `moodTrendData`: sort the date groups ascending by date,
keep the last 30, and map each to its rounded per-date averages. -/
def moodTrendData (ms : List MoodEntry) : List TrendPoint :=
  (sliceLast 30 (List.insertionSort (fun a b => a.1 ≤ b.1) (moodByDate ms))).map fun g =>
    { date := g.1
      mood := jsRound10 (dailyAvgQ MoodEntry.mood g.2)
      anxiety := jsRound10 (dailyAvgQ MoodEntry.anxiety g.2)
      energy := jsRound10 (dailyAvgQ MoodEntry.energy g.2)
      stress := jsRound10 (dailyAvgQ MoodEntry.stress g.2)
      count := g.2.length }

/-- One row of the analytics medication-adherence chart. -/
structure MedPoint where
  date : Int
  adherence : Int
deriving DecidableEq, Repr

/-- Analytics `medicationData`: `journalEntries.slice(-7)` in store
order, each entry mapped to its own per-entry adherence percentage. -/
def medicationData (js : List JournalEntry) : List MedPoint :=
  (sliceLast 7 js).map fun e =>
    { date := e.date
      adherence :=
        jsRound (if 0 < e.medications.length then
          (((e.medications.filter (fun m => m.taken)).length : ℚ) /
            (e.medications.length : ℚ)) * 100
        else 0) }

/-- Following the spec's words: the trailing window of `days` distinct
calendar dates that have data — sort the distinct dates ascending and
keep the `days` most recent. -/
def specTrailingDates (days : Nat) (ds : List Int) : List Int :=
  sliceLast days (List.insertionSort (· ≤ ·) ds.dedup)

/-- Following the spec's words: the number of distinct calendar days in
the window that have at least one entry with a non-empty
`psychoticSymptoms` set. -/
def specPsychoticSymptomDays (ms : List MoodEntry) : Nat :=
  ((ms.filter (fun e => decide (0 < e.psychoticSymptoms.length))).map
    (fun e => dateOf e.timestamp)).dedup.length

/-- Journal entry constructor for concrete instances: free-text fields
empty, quality and study fields zeroed. -/
def mkJournal (id : String) (date : Int) (sleepHours : ℚ)
    (medications : List Medication) : JournalEntry :=
  { id := id, date := date, medications := medications, sleepHours := sleepHours
    sleepQuality := 0, studyHours := 0, studySubjects := "", clinicalRotation := ""
    journalText := "", gratitude := "", goals := "", wellness := ""
    challenges := "", learnings := "" }

/-- Mood entry constructor for concrete instances: free-text fields
empty, optional fields absent. -/
def mkMood (id : String) (timestamp : Int) (mood anxiety energy stress : ℚ)
    (psychoticSymptoms : List String) : MoodEntry :=
  { id := id, timestamp := timestamp, mood := mood, anxiety := anxiety
    energy := energy, stress := stress, psychoticSymptoms := psychoticSymptoms
    triggers := "", notes := "", location := none, weather := none }

theorem findIndex_eq_none {α : Type} (p : α → Bool) (l : List α) :
    findIndex p l = none ↔ ∀ x ∈ l, p x = false := by
  induction l with
  | nil => simp [findIndex]
  | cons x xs ih =>
    by_cases hx : p x = true
    · simp [findIndex, hx]
    · simp only [Bool.not_eq_true] at hx
      simp [findIndex, hx, Option.map_eq_none', ih]

theorem findIndex_lt_length {α : Type} (p : α → Bool) (l : List α) (i : Nat)
    (h : findIndex p l = some i) : i < l.length := by
  induction l generalizing i with
  | nil => simp [findIndex] at h
  | cons x xs ih =>
    by_cases hx : p x = true
    · simp [findIndex, hx] at h
      simp [List.length_cons]
      omega
    · simp only [Bool.not_eq_true] at hx
      simp [findIndex, hx] at h
      obtain ⟨j, hj, rfl⟩ := h
      have := ih j hj
      simp
      omega

theorem getElem?_set_self_eq {α : Type} (l : List α) (i : Nat) (a : α)
    (h : i < l.length) : (l.set i a)[i]? = some a := by
  induction l generalizing i with
  | nil => simp at h
  | cons x xs ih =>
    match i with
    | 0 => simp
    | i + 1 =>
      simp only [List.set, List.getElem?_cons_succ]
      exact ih i (by simpa using h)

theorem getElem?_set_ne_eq {α : Type} (l : List α) (i j : Nat) (a : α)
    (h : j ≠ i) : (l.set i a)[j]? = l[j]? := by
  induction l generalizing i j with
  | nil => simp
  | cons x xs ih =>
    match i, j with
    | 0, 0 => omega
    | 0, j + 1 => simp
    | i + 1, 0 => simp
    | i + 1, j + 1 =>
      simp only [List.set, List.getElem?_cons_succ]
      exact ih i j (by omega)

theorem set_of_getElem? {α : Type} (l : List α) (i : Nat) (a : α)
    (h : l[i]? = some a) : l.set i a = l := by
  induction l generalizing i with
  | nil => simp at h
  | cons x xs ih =>
    match i with
    | 0 => simp at h; simp [h]
    | i + 1 =>
      simp only [List.getElem?_cons_succ] at h
      simp [List.set, ih i h]

theorem getElem?_append_length {α : Type} (l : List α) (e : α) :
    (l ++ [e])[l.length]? = some e := by
  induction l with
  | nil => simp
  | cons x xs ih => simp [ih]

theorem findIndex_set {α : Type} (p : α → Bool) (l : List α) (i : Nat) (e : α)
    (h : findIndex p l = some i) (he : p e = true) :
    findIndex p (l.set i e) = some i := by
  induction l generalizing i with
  | nil => simp [findIndex] at h
  | cons x xs ih =>
    by_cases hx : p x = true
    · simp [findIndex, hx] at h
      subst h
      simp [List.set, findIndex, he]
    · simp only [Bool.not_eq_true] at hx
      simp [findIndex, hx] at h
      obtain ⟨j, hj, rfl⟩ := h
      simp [List.set, findIndex, hx, ih j hj]

theorem findIndex_append_singleton {α : Type} (p : α → Bool) (l : List α) (e : α)
    (h : ∀ x ∈ l, p x = false) (he : p e = true) :
    findIndex p (l ++ [e]) = some l.length := by
  induction l with
  | nil => simp [findIndex, he]
  | cons x xs ih =>
    have hx := h x (by simp)
    simp only [List.cons_append, findIndex, hx]
    simp [ih (fun y hy => h y (by simp [hy]))]

theorem findIndex_of_nodup {α : Type} (id : α → String) (v : String) (l : List α)
    (hnd : (l.map id).Nodup) (i : Nat) (hi : i < l.length)
    (hv : id (l.get ⟨i, hi⟩) = v) :
    findIndex (fun e => decide (id e = v)) l = some i := by
  induction l generalizing i with
  | nil => simp at hi
  | cons x xs ih =>
    match i with
    | 0 =>
      simp only [List.get] at hv
      simp [findIndex, hv]
    | i + 1 =>
      simp only [List.get] at hv
      have hnd' : (xs.map id).Nodup := (List.nodup_cons.mp (by simpa using hnd)).2
      have hxnot : id x ∉ xs.map id := (List.nodup_cons.mp (by simpa using hnd)).1
      have hvmem : v ∈ xs.map id :=
        List.mem_map.mpr ⟨xs.get ⟨i, by simpa using hi⟩, List.get_mem xs i _, hv⟩
      have hx : ¬(id x = v) := fun hxv => hxnot (hxv ▸ hvmem)
      simp [findIndex, hx, ih hnd' i (by simpa using hi) hv]

/-- C1: for every store state whose ids are unique, upserting an entry
whose id equals the id of the entry at index `i` replaces the entry at
that index — same length, new entry at `i`, every other index unchanged —
and upserting an entry with a fresh id appends it at the end. -/
theorem upsert_replaces_in_place_or_appends {α : Type} (id : α → String)
    (l : List α) (e : α) (hnd : (l.map id).Nodup) :
    (∀ i, (hi : i < l.length) → id (l.get ⟨i, hi⟩) = id e →
      upsertBy id l e = l.set i e ∧
      (upsertBy id l e).length = l.length ∧
      (upsertBy id l e)[i]? = some e ∧
      ∀ j, j ≠ i → (upsertBy id l e)[j]? = l[j]?) ∧
    ((∀ x ∈ l, id x ≠ id e) → upsertBy id l e = l ++ [e]) := by
  constructor
  · intro i hi hid
    have hf := findIndex_of_nodup id (id e) l hnd i hi hid
    have hup : upsertBy id l e = l.set i e := by
      unfold upsertBy
      rw [hf]
    refine ⟨hup, ?_, ?_, ?_⟩
    · rw [hup, List.length_set]
    · rw [hup]
      exact getElem?_set_self_eq l i e hi
    · intro j hj
      rw [hup]
      exact getElem?_set_ne_eq l i j e hj
  · intro hfresh
    have hf : findIndex (fun x => decide (id x = id e)) l = none := by
      rw [findIndex_eq_none]
      intro x hx
      simp [hfresh x hx]
    unfold upsertBy
    rw [hf]

def jA : JournalEntry := mkJournal "A" 0 8 []

def jB : JournalEntry := mkJournal "B" 1 8 []

def jB2 : JournalEntry := mkJournal "B" 1 6 []

def jC : JournalEntry := mkJournal "C" 2 8 []

def jD : JournalEntry := mkJournal "D" 3 8 []

/-- C1 witness: on the concrete store `[A, B, C]`, upserting a modified
`B` yields `[A, B', C]` and upserting a fresh `D` appends it. -/
theorem upsert_replaces_in_place_or_appends_witness :
    upsertBy JournalEntry.id [jA, jB, jC] jB2 = [jA, jB2, jC] ∧
    upsertBy JournalEntry.id [jA, jB, jC] jD = [jA, jB, jC, jD] := by
  constructor
  · have h := (upsert_replaces_in_place_or_appends JournalEntry.id [jA, jB, jC] jB2
      (by decide)).1 1 (by decide) (by decide)
    rw [h.1]
    rfl
  · have h := (upsert_replaces_in_place_or_appends JournalEntry.id [jA, jB, jC] jD
      (by decide)).2 (by decide)
    rw [h]
    rfl

/-- C8: upsert is idempotent — upserting the same entry twice leaves the
collection identical (same length and order) to upserting it once, for
every store state. -/
theorem upsert_idempotent {α : Type} (id : α → String) (l : List α) (e : α) :
    upsertBy id (upsertBy id l e) e = upsertBy id l e := by
  have hpe : (fun x => decide (id x = id e)) e = true := by simp
  cases hf : findIndex (fun x => decide (id x = id e)) l with
  | some i =>
    have hi : i < l.length := findIndex_lt_length _ l i hf
    have h1 : upsertBy id l e = l.set i e := by
      unfold upsertBy
      rw [hf]
    have hf2 : findIndex (fun x => decide (id x = id e)) (l.set i e) = some i :=
      findIndex_set _ l i e hf hpe
    rw [h1]
    unfold upsertBy
    rw [hf2]
    exact set_of_getElem? (l.set i e) i e (getElem?_set_self_eq l i e hi)
  | none =>
    have h1 : upsertBy id l e = l ++ [e] := by
      unfold upsertBy
      rw [hf]
    have hall : ∀ x ∈ l, (fun x => decide (id x = id e)) x = false :=
      (findIndex_eq_none _ l).mp hf
    have hf2 : findIndex (fun x => decide (id x = id e)) (l ++ [e]) = some l.length :=
      findIndex_append_singleton _ l e hall hpe
    rw [h1]
    unfold upsertBy
    rw [hf2]
    exact set_of_getElem? (l ++ [e]) l.length e (getElem?_append_length l e)

/-- C10: saving a mood entry leaves the journal collection unchanged and
saving a journal entry leaves the mood collection unchanged — each save
handler upserts only into the store for its own entry kind. -/
theorem save_handlers_frame (s : AppState) (je : JournalEntry) (me : MoodEntry) :
    (handleSaveMoodEntry s me).journalEntries = s.journalEntries ∧
    (handleSaveJournalEntry s je).moodEntries = s.moodEntries :=
  ⟨rfl, rfl⟩

/-- C9: the load-on-mount effect is a total function (it cannot crash);
when the stored value under a collection key fails to decode, that
collection falls back to the empty collection, and either collection's
result is independent of the other key's decoder. -/
theorem load_decode_fallback (savedJ savedM : Option String)
    (decJ : String → Option (List JournalEntry))
    (decM : String → Option (List MoodEntry)) :
    (∀ s, savedJ = some s → decJ s = none →
      (loadEntries savedJ savedM decJ decM).1 = []) ∧
    (∀ s, savedM = some s → decM s = none →
      (loadEntries savedJ savedM decJ decM).2 = []) ∧
    (∀ decJ' : String → Option (List JournalEntry),
      (loadEntries savedJ savedM decJ decM).2 = (loadEntries savedJ savedM decJ' decM).2) ∧
    (∀ decM' : String → Option (List MoodEntry),
      (loadEntries savedJ savedM decJ decM).1 = (loadEntries savedJ savedM decJ decM').1) := by
  refine ⟨?_, ?_, fun _ => rfl, fun _ => rfl⟩
  · intro s hs hd
    subst hs
    simp [loadEntries, loadCollection, hd]
  · intro s hs hd
    subst hs
    simp [loadEntries, loadCollection, hd]

/-- C9 witness: with a journal value that fails to decode and a mood
value that decodes, the journal collection falls back to empty. -/
theorem load_decode_fallback_witness :
    (loadEntries (some "garbage") (some "ok") (fun _ => none)
      (fun _ => some [mkMood "m1" 0 5 5 5 5 []])).1 = [] := by
  have h := load_decode_fallback (some "garbage") (some "ok") (fun _ => none)
    (fun _ => some [mkMood "m1" 0 5 5 5 5 []])
  exact h.1 "garbage" rfl rfl

theorem findGroup_groupInsert (acc : List (Int × List MoodEntry)) (d : Int)
    (e : MoodEntry) (k : Int) :
    findGroup k (groupInsert d e acc) =
      if k = d then findGroup k acc ++ [e] else findGroup k acc := by
  induction acc with
  | nil =>
    by_cases hk : k = d
    · simp [groupInsert, findGroup, hk]
    · have hdk : ¬(d = k) := fun h => hk h.symm
      simp [groupInsert, findGroup, hk, hdk]
  | cons p rest ih =>
    obtain ⟨kh, g⟩ := p
    by_cases hd : kh = d
    · subst hd
      by_cases hk : kh = k
      · subst hk
        simp [groupInsert, findGroup]
      · have hkk : ¬(k = kh) := fun h => hk h.symm
        simp [groupInsert, findGroup, hk, hkk]
    · by_cases hk : kh = k
      · subst hk
        have hkd : ¬(kh = d) := hd
        simp [groupInsert, findGroup, hkd, fun h : kh = d => hd h]
      · simp [groupInsert, findGroup, hd, hk, ih]

theorem findGroup_foldl (ms : List MoodEntry) (acc : List (Int × List MoodEntry))
    (k : Int) :
    findGroup k (ms.foldl (fun a e => groupInsert (dateOf e.timestamp) e a) acc) =
      findGroup k acc ++ ms.filter (fun e => decide (dateOf e.timestamp = k)) := by
  induction ms generalizing acc with
  | nil => simp
  | cons e ms ih =>
    simp only [List.foldl_cons, ih, findGroup_groupInsert]
    by_cases hk : k = dateOf e.timestamp
    · subst hk
      simp [List.filter_cons, List.append_assoc]
    · have hk2 : ¬(dateOf e.timestamp = k) := fun h => hk h.symm
      simp [hk, hk2, List.filter_cons]

theorem keys_groupInsert (acc : List (Int × List MoodEntry)) (d : Int)
    (e : MoodEntry) :
    (groupInsert d e acc).map Prod.fst =
      if d ∈ acc.map Prod.fst then acc.map Prod.fst else acc.map Prod.fst ++ [d] := by
  induction acc with
  | nil => simp [groupInsert]
  | cons p rest ih =>
    obtain ⟨kh, g⟩ := p
    by_cases hk : kh = d
    · subst hk
      simp [groupInsert]
    · have hne : ¬(d = kh) := fun h => hk h.symm
      by_cases hmem : d ∈ rest.map Prod.fst
      · simp [groupInsert, hk, ih, hmem, hne]
      · simp [groupInsert, hk, ih, hmem, hne]

theorem mem_keys_groupInsert (acc : List (Int × List MoodEntry)) (d : Int)
    (e : MoodEntry) (k : Int) :
    k ∈ (groupInsert d e acc).map Prod.fst ↔ k ∈ acc.map Prod.fst ∨ k = d := by
  rw [keys_groupInsert]
  by_cases hmem : d ∈ acc.map Prod.fst
  · simp only [hmem, if_true]
    constructor
    · exact Or.inl
    · rintro (h | rfl)
      · exact h
      · exact hmem
  · simp [hmem, List.mem_append]

theorem keys_foldl_nodup (ms : List MoodEntry) (acc : List (Int × List MoodEntry))
    (h : (acc.map Prod.fst).Nodup) :
    ((ms.foldl (fun a e => groupInsert (dateOf e.timestamp) e a) acc).map Prod.fst).Nodup := by
  induction ms generalizing acc with
  | nil => simpa using h
  | cons e ms ih =>
    simp only [List.foldl_cons]
    refine ih _ ?_
    rw [keys_groupInsert]
    by_cases hmem : dateOf e.timestamp ∈ acc.map Prod.fst
    · simpa [hmem] using h
    · simp only [hmem, if_false]
      simp [List.nodup_append, h, hmem]

theorem keys_foldl_mem (ms : List MoodEntry) (acc : List (Int × List MoodEntry))
    (k : Int) :
    (k ∈ (ms.foldl (fun a e => groupInsert (dateOf e.timestamp) e a) acc).map Prod.fst) ↔
      (k ∈ acc.map Prod.fst ∨ ∃ e ∈ ms, dateOf e.timestamp = k) := by
  induction ms generalizing acc with
  | nil => simp
  | cons e ms ih =>
    simp only [List.foldl_cons, ih, mem_keys_groupInsert, List.mem_cons]
    constructor
    · rintro (⟨h | h⟩ | ⟨x, hx, hdx⟩)
      · exact Or.inl h
      · exact Or.inr ⟨e, Or.inl rfl, h.symm⟩
      · exact Or.inr ⟨x, Or.inr hx, hdx⟩
    · rintro (h | ⟨x, hx | hx, hdx⟩)
      · exact Or.inl (Or.inl h)
      · subst hx
        exact Or.inl (Or.inr hdx.symm)
      · exact Or.inr ⟨x, hx, hdx⟩

/-- C7: grouping mood entries by calendar date yields exactly one key
per distinct date value (the key list has no duplicates and contains
exactly the dates of the entries), and each date's group is exactly the
subsequence of entries with that date, in their relative store order. -/
theorem moodByDate_spec (ms : List MoodEntry) :
    ((moodByDate ms).map Prod.fst).Nodup ∧
    (∀ k, k ∈ (moodByDate ms).map Prod.fst ↔ ∃ e ∈ ms, dateOf e.timestamp = k) ∧
    (∀ k, findGroup k (moodByDate ms) =
      ms.filter (fun e => decide (dateOf e.timestamp = k))) := by
  refine ⟨?_, fun k => ?_, fun k => ?_⟩
  · exact keys_foldl_nodup ms [] (by simp)
  · simpa using keys_foldl_mem ms [] k
  · simpa [findGroup] using findGroup_foldl ms [] k

/-- C6: aggregation over empty input is total and defaults to zero — the
adherence of a window with zero medications is 0 and always lies in
[0, 100], and every rolling mean over zero qualifying entries is 0. -/
theorem aggregates_empty_safe (js : List JournalEntry) (ms : List MoodEntry) :
    (totalMedsOf js = 0 → adherenceOf js = 0) ∧
    0 ≤ adherenceOf js ∧ adherenceOf js ≤ 100 ∧
    (ms.length = 0 → avgMoodOf ms = 0 ∧ avgAnxietyOf ms = 0 ∧
      avgEnergyOf ms = 0 ∧ avgStressOf ms = 0) ∧
    (js.length = 0 → avgSleepOf js = 0 ∧ avgStudyOf js = 0) := by
  refine ⟨?_, ?_, ?_, ?_, ?_⟩
  · intro h
    simp [adherenceOf, h]
  · by_cases h : 0 < totalMedsOf js
    · simp only [adherenceOf, if_pos h]
      positivity
    · simp [adherenceOf, h]
  · by_cases h : 0 < totalMedsOf js
    · simp only [adherenceOf, if_pos h]
      have hle : takenMedsOf js ≤ totalMedsOf js := by
        unfold takenMedsOf totalMedsOf
        exact List.sum_le_sum fun e _ => List.length_filter_le _ _
      have h1 : (takenMedsOf js : ℚ) ≤ (totalMedsOf js : ℚ) := by exact_mod_cast hle
      have h2 : (0 : ℚ) < (totalMedsOf js : ℚ) := by exact_mod_cast h
      have hdiv : (takenMedsOf js : ℚ) / (totalMedsOf js : ℚ) ≤ 1 :=
        (div_le_one h2).mpr h1
      calc (takenMedsOf js : ℚ) / (totalMedsOf js : ℚ) * 100
          ≤ 1 * 100 := mul_le_mul_of_nonneg_right hdiv (by norm_num)
        _ = 100 := by norm_num
    · simp [adherenceOf, h]
  · intro h
    have hms : ms = [] := List.length_eq_zero.mp h
    subst hms
    simp [avgMoodOf, avgAnxietyOf, avgEnergyOf, avgStressOf, rollingMeanQ]
  · intro h
    have hjs : js = [] := List.length_eq_zero.mp h
    subst hjs
    simp [avgSleepOf, avgStudyOf, rollingMeanQ]

/-- C6 witness: on the empty collections, adherence and every rolling
mean evaluate to 0. -/
theorem aggregates_empty_safe_witness :
    adherenceOf [] = 0 ∧ avgMoodOf [] = 0 ∧ avgAnxietyOf [] = 0 ∧
    avgEnergyOf [] = 0 ∧ avgStressOf [] = 0 ∧ avgSleepOf [] = 0 ∧ avgStudyOf [] = 0 := by
  have h := aggregates_empty_safe [] []
  exact ⟨h.1 rfl, (h.2.2.2.1 rfl).1, (h.2.2.2.1 rfl).2.1, (h.2.2.2.1 rfl).2.2.1,
    (h.2.2.2.1 rfl).2.2.2, (h.2.2.2.2 rfl).1, (h.2.2.2.2 rfl).2⟩

theorem mem_ite_singleton {c : Prop} [Decidable c] (a b : AlertKind) :
    (a ∈ (if c then [b] else [])) ↔ (c ∧ a = b) := by
  by_cases h : c
  · simp [h]
  · simp [h]

/-- C4: the High-anxiety alert is emitted if and only if the unrounded
7-day rolling mean of anxiety is strictly greater than 7; moreover there
is a state where the alert fires even though the one-decimal rounded
mean equals exactly 7, so the comparison uses the unrounded value. -/
theorem high_anxiety_iff :
    (∀ (js : List JournalEntry) (ms : List MoodEntry) (w : Int),
      AlertKind.highAnxiety ∈ dashboardAlerts js ms w ↔
        7 < avgAnxietyOf (recentMoodEntries ms w)) ∧
    (∃ (ms : List MoodEntry) (w : Int),
      AlertKind.highAnxiety ∈ dashboardAlerts [] ms w ∧
      jsRound10 (avgAnxietyOf (recentMoodEntries ms w)) = 7) := by
  constructor
  · intro js ms w
    simp only [dashboardAlerts, alertsOf, List.mem_append, mem_ite_singleton]
    constructor
    · rintro ((((((⟨_, h⟩ | ⟨hc, _⟩) | ⟨_, h⟩) | ⟨_, h⟩) | ⟨_, h⟩) | ⟨_, h⟩) | ⟨_, h⟩)
      · exact absurd h (by decide)
      · exact hc
      · exact absurd h (by decide)
      · exact absurd h (by decide)
      · exact absurd h (by decide)
      · exact absurd h (by decide)
      · exact absurd h (by decide)
    · intro h
      exact Or.inl (Or.inl (Or.inl (Or.inl (Or.inl (Or.inr ⟨h, trivial⟩)))))
  · have hA : avgAnxietyOf (recentMoodEntries [mkMood "m" 0 5 (176/25) 5 5 []] 0) =
        176/25 := by
      norm_num [recentMoodEntries, avgAnxietyOf, rollingMeanQ, mkMood]
    refine ⟨[mkMood "m" 0 5 (176/25) 5 5 []], 0, ?_, ?_⟩
    · simp only [dashboardAlerts, alertsOf, List.mem_append, mem_ite_singleton]
      refine Or.inl (Or.inl (Or.inl (Or.inl (Or.inl (Or.inr ⟨?_, trivial⟩)))))
      rw [hA]
      norm_num
    · rw [hA]
      norm_num [jsRound10, jsRound]

def symptomDay : Int := 19783

def ms4 : List MoodEntry :=
  [mkMood "p1" (symptomDay * msPerDay) 5 5 5 5 ["halusinasi"],
   mkMood "p2" (symptomDay * msPerDay + 3600000) 5 5 5 5 ["halusinasi"],
   mkMood "p3" (symptomDay * msPerDay + 7200000) 5 5 5 5 ["halusinasi"],
   mkMood "p4" (symptomDay * msPerDay + 10800000) 5 5 5 5 ["halusinasi"]]

/-- C2: with four symptomatic mood entries all on the same calendar day
inside the window, the dashboard emits the critical psychotic-symptom
alert although only one distinct day has symptomatic entries — the code
counts entries, not distinct days, contradicting its own variable name
and its user-facing message, which report the count as a number of
days. -/
theorem psychotic_alert_counts_entries_not_days :
    AlertKind.psychoticSymptoms ∈ dashboardAlerts [] ms4 (symptomDay * msPerDay) ∧
    psychoticSymptomDaysOf (recentMoodEntries ms4 (symptomDay * msPerDay)) = 4 ∧
    specPsychoticSymptomDays (recentMoodEntries ms4 (symptomDay * msPerDay)) = 1 ∧
    ¬(3 < specPsychoticSymptomDays (recentMoodEntries ms4 (symptomDay * msPerDay))) := by
  have hrm : recentMoodEntries ms4 (symptomDay * msPerDay) = ms4 := rfl
  refine ⟨?_, ?_, ?_, ?_⟩
  · simp only [dashboardAlerts, alertsOf, hrm, List.mem_append, mem_ite_singleton]
    refine Or.inl (Or.inl (Or.inr ⟨?_, trivial⟩))
    decide
  · rw [hrm]
    decide
  · rw [hrm]
    decide
  · rw [hrm]
    decide

def js7 : List JournalEntry :=
  [mkJournal "e1" 19783 5 [], mkJournal "e2" 19784 5 [], mkJournal "e3" 19785 5 [],
   mkJournal "e4" 19786 5 [], mkJournal "e5" 19787 5 [], mkJournal "e6" 19788 5 [],
   mkJournal "e7" 19789 5 []]

/-- C5: for seven journal entries dated 2024-03-01..2024-03-07 (day
indices 19783..19789), each with 5 sleep hours and no medications, and
no mood entries, evaluated with every date inside the window: the
Sleep-deficit alert fires (mean sleep 5 < 6), the No-data alert fires
(both rolling means 0 and zero mood entries), and the Low-adherence
alert does not fire (total medication count 0). -/
theorem scenario_march_week (w : Int) (hw : w ≤ 19783 * msPerDay) :
    AlertKind.sleepDeficit ∈ dashboardAlerts js7 [] w ∧
    AlertKind.noData ∈ dashboardAlerts js7 [] w ∧
    AlertKind.lowAdherence ∉ dashboardAlerts js7 [] w := by
  have hrj : recentJournalEntries js7 w = js7 := by
    unfold recentJournalEntries
    rw [List.filter_eq_self]
    intro a ha
    fin_cases ha <;>
      · simp only [mkJournal, decide_eq_true_eq, msPerDay] at hw ⊢
        omega
  have halerts : dashboardAlerts js7 [] w = alertsOf js7 [] := by
    unfold dashboardAlerts
    rw [hrj]
    rfl
  have havgS : avgSleepOf js7 = 5 := by
    norm_num [avgSleepOf, rollingMeanQ, js7, mkJournal]
  have htot : totalMedsOf js7 = 0 := rfl
  have hadh : adherenceOf js7 = 0 := by
    simp [adherenceOf, htot]
  have halerts2 : alertsOf js7 [] =
      [AlertKind.lowMood, AlertKind.sleepDeficit, AlertKind.noData] := by
    simp only [alertsOf, havgS, htot, hadh]
    norm_num [avgMoodOf, avgAnxietyOf, rollingMeanQ, psychoticSymptomDaysOf]
  rw [halerts, halerts2]
  decide

/-- C5 witness: the scenario evaluated at the concrete cutoff 0. -/
theorem scenario_march_week_witness :
    AlertKind.sleepDeficit ∈ dashboardAlerts js7 [] 0 ∧
    AlertKind.noData ∈ dashboardAlerts js7 [] 0 ∧
    AlertKind.lowAdherence ∉ dashboardAlerts js7 [] 0 :=
  scenario_march_week 0 (by decide)

def js10 : List JournalEntry :=
  [mkJournal "g01" 19790 7 [], mkJournal "g02" 19789 7 [], mkJournal "g03" 19788 7 [],
   mkJournal "g04" 19787 7 [], mkJournal "g05" 19786 7 [], mkJournal "g06" 19785 7 [],
   mkJournal "g07" 19784 7 [], mkJournal "g08" 19783 7 [], mkJournal "g09" 19782 7 [],
   mkJournal "g10" 19781 7 []]

/-- C3 counterexample: for ten journal entries with ten distinct dates
stored newest-first, the days=7 medication window does not return the 7
most recent distinct dates sorted ascending — it returns the last 7
entries in store order (here the 7 oldest dates, descending). -/
theorem trailing_window_not_distinct_dates :
    ¬((medicationData js10).map MedPoint.date =
      specTrailingDates 7 (js10.map JournalEntry.date)) := by
  decide

instance keyLeTotal : IsTotal (Int × List MoodEntry) (fun a b => a.1 ≤ b.1) :=
  ⟨fun a b => le_total a.1 b.1⟩

instance keyLeTrans : IsTrans (Int × List MoodEntry) (fun a b => a.1 ≤ b.1) :=
  ⟨fun _ _ _ h1 h2 => le_trans h1 h2⟩

/-- C3 (amended): the days=7 medication window returns one row per entry
of the last 7 entries in store order — dates unsorted and not
deduplicated — while the distinct-date trailing-window behaviour belongs
to the mood-trend computation (days=30): when at most 30 distinct dates
carry data, its date column is sorted ascending, duplicate-free, and
contains exactly the distinct calendar dates of the entries. -/
theorem trailing_window_amended :
    (∀ js : List JournalEntry,
      (medicationData js).map MedPoint.date = (sliceLast 7 js).map JournalEntry.date) ∧
    (∀ ms : List MoodEntry, (moodByDate ms).length ≤ 30 →
      ((moodTrendData ms).map TrendPoint.date).Sorted (· ≤ ·) ∧
      ((moodTrendData ms).map TrendPoint.date).Nodup ∧
      (∀ d, d ∈ (moodTrendData ms).map TrendPoint.date ↔
        ∃ e ∈ ms, dateOf e.timestamp = d)) := by
  constructor
  · intro js
    unfold medicationData
    rw [List.map_map]
    rfl
  · intro ms h
    have hlen2 : (List.insertionSort (fun a b => a.1 ≤ b.1) (moodByDate ms)).length =
        (moodByDate ms).length := (List.perm_insertionSort _ _).length_eq
    have hslice : sliceLast 30 (List.insertionSort (fun a b => a.1 ≤ b.1) (moodByDate ms)) =
        List.insertionSort (fun a b => a.1 ≤ b.1) (moodByDate ms) := by
      unfold sliceLast
      rw [hlen2, Nat.sub_eq_zero_of_le h, List.drop_zero]
    have hmt : (moodTrendData ms).map TrendPoint.date =
        (List.insertionSort (fun a b => a.1 ≤ b.1) (moodByDate ms)).map Prod.fst := by
      unfold moodTrendData
      rw [hslice, List.map_map]
      rfl
    have hperm : List.Perm
        ((List.insertionSort (fun a b => a.1 ≤ b.1) (moodByDate ms)).map Prod.fst)
        ((moodByDate ms).map Prod.fst) :=
      (List.perm_insertionSort _ _).map Prod.fst
    refine ⟨?_, ?_, ?_⟩
    · rw [hmt]
      have hsorted : List.Sorted (fun a b => (a : Int × List MoodEntry).1 ≤ b.1)
          (List.insertionSort (fun a b => a.1 ≤ b.1) (moodByDate ms)) :=
        List.sorted_insertionSort _ _
      rw [List.Sorted, List.pairwise_map]
      exact hsorted
    · rw [hmt]
      exact hperm.nodup_iff.mpr (keys_foldl_nodup ms [] (by simp))
    · intro d
      rw [hmt, hperm.mem_iff]
      simpa using keys_foldl_mem ms [] d

def msW : List MoodEntry :=
  [mkMood "w1" 0 5 5 5 5 [], mkMood "w2" msPerDay 6 6 6 6 []]

/-- C3 witness for the amended claim: on a concrete two-day mood
collection the trend date column is sorted and duplicate-free, and the
medication window of the ten-entry store is its last 7 entries. -/
theorem trailing_window_amended_witness :
    ((moodTrendData msW).map TrendPoint.date).Sorted (· ≤ ·) ∧
    ((moodTrendData msW).map TrendPoint.date).Nodup ∧
    (medicationData js10).map MedPoint.date = (sliceLast 7 js10).map JournalEntry.date := by
  have h := trailing_window_amended.2 msW (by decide)
  exact ⟨h.1, h.2.1, trailing_window_amended.1 js10⟩
